import Mathlib

/-!
Verification of the query-translation and single-job orchestration layer of the
weiboSearch web wrapper (run_weibo_search.py, weibo/settings.py).

Strings are modelled as lists of characters (Python strings are sequences of
unicode code points).  Python library primitives used by the script
(str.strip, str.split, str.splitlines, int(), urllib.parse.parse_qs) are
modelled faithfully on that representation; the pieces of the repository under
scrutiny (keyword compilation, hashtag encoding, region handling, date
defaults, the spider-configuration mutation, artifact discovery and the HTTP
POST handler) are translated directly from the source.  External collaborators
(weibo.utils converters, util.get_regions, the Scrapy engine, the browser) are
parameters of the model.
-/

namespace WeiboSearch

/-- Python string model: a sequence of unicode characters. -/
abbrev Str := List Char

/-- Characters that Python `str.splitlines` treats as line boundaries:
LF, CR, VT, FF, FS, GS, RS, NEL, LINE SEPARATOR, PARAGRAPH SEPARATOR. -/
def lineBoundaryChars : List Char :=
  ['\n', '\r', Char.ofNat 11, Char.ofNat 12, Char.ofNat 28, Char.ofNat 29,
   Char.ofNat 30, Char.ofNat 133, Char.ofNat 8232, Char.ofNat 8233]

def isLineBoundary (c : Char) : Bool := lineBoundaryChars.contains c

/-- Characters that Python `str.strip` / no-argument `str.split` treat as
whitespace: every line boundary character together with space, tab, US,
NBSP and the unicode space separators. -/
def isPySpace (c : Char) : Bool :=
  isLineBoundary c ||
    [' ', '\t', Char.ofNat 31, Char.ofNat 160, Char.ofNat 5760, Char.ofNat 8192,
     Char.ofNat 8193, Char.ofNat 8194, Char.ofNat 8195, Char.ofNat 8196, Char.ofNat 8197,
     Char.ofNat 8198, Char.ofNat 8199, Char.ofNat 8200, Char.ofNat 8201, Char.ofNat 8202,
     Char.ofNat 8239, Char.ofNat 8287, Char.ofNat 12288].contains c

theorem isPySpace_of_isLineBoundary {c : Char} (h : isLineBoundary c) : isPySpace c := by
  simp [isPySpace, h]

/-- Model of Python `str.strip()` with no argument: remove leading and
trailing whitespace. -/
def pyStrip (s : Str) : Str := (s.dropWhile isPySpace).rdropWhile isPySpace

/-- Model of Python `str.splitlines()`: split at line boundary characters,
treating CR LF as a single boundary; a trailing boundary does not produce a
final empty line. -/
def pySplitlines : Str → List Str
  | [] => []
  | '\r' :: '\n' :: t => [] :: pySplitlines t
  | a :: t =>
    if isLineBoundary a then [] :: pySplitlines t
    else
      match pySplitlines t with
      | [] => [[a]]
      | h :: r => (a :: h) :: r

/-- Chunks of a string delimited by characters satisfying `p`, keeping empty
chunks, as in Python `str.split(sep)`: splitting the empty string yields one
empty chunk. -/
def chunksP (p : Char → Bool) : Str → List Str
  | [] => [[]]
  | a :: t =>
    if p a then [] :: chunksP p t
    else
      match chunksP p t with
      | [] => [[a]]
      | h :: r => (a :: h) :: r

/-- Model of Python `str.split()` with no argument: split on whitespace runs,
discarding empty pieces. -/
def pySplitWS (s : Str) : List Str := (chunksP isPySpace s).filter (fun t => t ≠ [])

/-- The reserved three-character escape used by the crawl engine's query
transport for the hashtag delimiter. -/
def hashEscape : Str := ['%', '2', '3']

/-- Translation of `conv_token` (run_weibo_search.py lines 145-149): a
stripped token of length at least 3 delimited by a hash on both ends is sent
to its percent-escaped form; every other token is returned unchanged. -/
def conv_token (tok : Str) : Str :=
  let t := pyStrip tok
  if 2 < t.length ∧ t.head? = some '#' ∧ t.getLast? = some '#' then
    hashEscape ++ ((t.drop 1).dropLast ++ hashEscape)
  else t

/-- Translation of `restore_hashtag` (run_weibo_search.py lines 200-203):
a string both starting and ending with the percent escape is rewritten back
to hash-delimited form. -/
def restore_hashtag (s : Str) : Str :=
  if hashEscape.isPrefixOf s ∧ hashEscape.isSuffixOf s then
    '#' :: ((s.drop 3).take (s.length - 6) ++ ['#'])
  else s

/-- A compiled keyword directive: either a single search token or a
conjunction of tokens (translation of the `List[Union[str, List[str]]]`
elements built by `run_spider`). -/
inductive KwItem
  | single (tok : Str)
  | conj (toks : List Str)
deriving DecidableEq, Repr

/-- Body of the keyword parsing loop of `run_spider` (run_weibo_search.py
lines 122-129) for one line: strip it, skip it when blank, tokenize it by
whitespace, skip it when no token remains, and otherwise keep a conjunction
for a multi-token line and the bare first token for a one-token line. -/
def line_item (line : Str) : Option KwItem :=
  let l := pyStrip line
  if l = [] then none
  else
    let tokens := (pySplitWS l).filter (fun t => t ≠ [])
    if tokens = [] then none
    else if 1 < tokens.length then some (KwItem.conj tokens)
    else some (KwItem.single (tokens.headD []))

/-- Translation of the keyword parsing of `run_spider` (run_weibo_search.py
lines 116-129): strip the whole field, and when non-empty run the loop body
over its lines. -/
def keyword_items (raw : Str) : List KwItem :=
  let keywords_raw := pyStrip raw
  if keywords_raw = [] then []
  else (pySplitlines keywords_raw).filterMap line_item

/-- Per-item hashtag encoding (run_weibo_search.py lines 151-156). -/
def conv_item : KwItem → KwItem
  | KwItem.single s => KwItem.single (conv_token s)
  | KwItem.conj l => KwItem.conj (l.map conv_token)

/-- The fully compiled keyword expression `kw_conv` of `run_spider`. -/
def kw_conv_of (raw : Str) : List KwItem := (keyword_items raw).map conv_item

-- Sanity checks on concrete inputs (the scenario of the specification).
example :
    kw_conv_of ("东南大学 南京大学\n#活动#".data) =
      [KwItem.conj ["东南大学".data, "南京大学".data], KwItem.single ("%23活动%23".data)] := by
  decide

example : keyword_items ("  \n \n".data) = [] := by decide

/-- The sentinel region name meaning "no geographic filter". -/
def sentinelRegion : Str := "全部".data

/-- The pieces of the region field after the processing of
run_weibo_search.py line 134-135: strip the field, split on commas, strip
each piece and drop the blank ones. -/
def region_pieces (raw : Str) : List Str :=
  (chunksP (fun c => c = ',') (pyStrip raw)).filterMap (fun r =>
    let t := pyStrip r
    if t = [] then none else some t)

/-- Translation of `region_list` (run_weibo_search.py line 135): the comma
pieces, or the sentinel singleton when no piece survives. -/
def region_list (raw : Str) : List Str :=
  let pieces := region_pieces raw
  if pieces = [] then [sentinelRegion] else pieces

/-- Translation of the resolver dispatch (run_weibo_search.py line 160):
`util.get_regions(region_list)` is invoked unless the region list is exactly
the sentinel singleton, in which case the resolved set is empty.  `none`
means the resolver is skipped (empty resolved set); `some rl` is the
argument forwarded to the resolver. -/
def resolver_arg (raw : Str) : Option (List Str) :=
  let rl := region_list raw
  if rl.length = 1 ∧ rl.headD [] = sentinelRegion then none else some rl

example : resolver_arg ("全部".data) = none := by decide
example : resolver_arg ("".data) = none := by decide
example : resolver_arg (" 全部 , ".data) = none := by decide
example : resolver_arg ("北京,上海".data) = some ["北京".data, "上海".data] := by decide

/-- Fallback used for an absent or empty start_date
(run_weibo_search.py line 137). -/
def start_date_fallback : Str := "2025-10-01".data

/-- Fallback used for an absent or empty end_date
(run_weibo_search.py line 138). -/
def end_date_fallback : Str := "2025-10-28".data

/-- START_DATE constant of weibo/settings.py line 39. -/
def settings_START_DATE : Str := "2025-10-27".data

/-- END_DATE constant of weibo/settings.py line 41. -/
def settings_END_DATE : Str := "2025-10-28".data

/-- A form submission: field name to single string value (the flattened
dictionary handed to `run_spider`). -/
abbrev Params := List (Str × Str)

/-- Model of Python `dict.get(k)`: the value at the key, if present. -/
def pget (p : Params) (k : Str) : Option Str :=
  (p.find? (fun q => q.1 = k)).map (fun q => q.2)

/-- Model of the Python idiom `params.get(k) or fallback`: an absent key or
an empty (falsy) value selects the fallback. -/
def getOrFallback (p : Params) (k : Str) (fb : Str) : Str :=
  match pget p k with
  | none => fb
  | some v => if v = [] then fb else v

/-- Compiled start date (run_weibo_search.py line 137). -/
def start_date_of (p : Params) : Str := getOrFallback p ("start_date".data) start_date_fallback

/-- Compiled end date (run_weibo_search.py line 138). -/
def end_date_of (p : Params) : Str := getOrFallback p ("end_date".data) end_date_fallback

/-- Exceptions that the modelled code can raise. `jobAlreadyRunningError`
is the failure mode named by the specification; it is part of the outcome
vocabulary so that statements about it can be expressed. -/
inductive PyErr
  | valueError
  | attributeError
  | jobAlreadyRunningError
deriving DecidableEq, Repr

def digitVal (c : Char) : Nat := c.toNat - 48

/-- Digit-run parsing for Python `int`: decimal digits with single
underscores allowed between digits. -/
def pyIntGo (acc : Nat) : Str → Option Nat
  | [] => some acc
  | '_' :: c :: cs => if c.isDigit then pyIntGo (acc * 10 + digitVal c) cs else none
  | '_' :: [] => none
  | c :: cs => if c.isDigit then pyIntGo (acc * 10 + digitVal c) cs else none

def pyIntDigits : Str → Option Nat
  | [] => none
  | c :: cs => if c.isDigit then pyIntGo (digitVal c) cs else none

/-- Signed integer reading for `pyInt`: one optional sign followed by a
digit run. -/
def pyIntCore : Str → Option Int
  | '-' :: rest => (pyIntDigits rest).map (fun n => -(n : Int))
  | '+' :: rest => (pyIntDigits rest).map (fun n => (n : Int))
  | t => (pyIntDigits t).map (fun n => (n : Int))

/-- Model of Python `int(s)` on a string: strip whitespace, allow one sign,
then require a non-empty digit run; anything else raises ValueError. -/
def pyInt (s : Str) : Except PyErr Int :=
  match pyIntCore (pyStrip s) with
  | some n => Except.ok n
  | none => Except.error PyErr.valueError

example : pyInt ("".data) = Except.error PyErr.valueError := rfl
example : pyInt (" -12 ".data) = Except.ok (-12) := rfl
example : pyInt ("3a".data) = Except.error PyErr.valueError := rfl

/-- Translation of `int(params.get(k, 0))` (run_weibo_search.py lines
131-132): an absent field yields the integer 0 without any parsing; a
present field has its string value parsed by `int`. -/
def int_field (p : Params) (k : Str) : Except PyErr Int :=
  match pget p k with
  | none => Except.ok 0
  | some v => pyInt v

/-- Model of `params.get(k, d)` with a string default. -/
def get_default (p : Params) (k : Str) (d : Str) : Str := (pget p k).getD d

/-- One entry of the artifact output root, as seen through `iterdir`:
its name, whether it is a directory, and its csv files in glob order. -/
structure DirEntry where
  name : Str
  isDir : Bool
  csvFiles : List Str
deriving DecidableEq, Repr

/-- The artifact filesystem boundary: whether the output root exists and its
entries in enumeration order. -/
structure Fs where
  resultsBaseExists : Bool
  entries : List DirEntry
deriving DecidableEq, Repr

/-- Python evaluation of `restore_hashtag(kw_conv[0])`: the leading element
of the compiled expression can be a Python list (a conjunction line), and
calling `.startswith` on a list raises AttributeError. -/
def restore_item : KwItem → Except PyErr Str
  | KwItem.single s => Except.ok (restore_hashtag s)
  | KwItem.conj _ => Except.error PyErr.attributeError

/-- Substring test, as the Python `in` operator on strings. -/
def strContains (hay needle : Str) : Bool :=
  (List.range (hay.length + 1)).any (fun i => needle.isPrefixOf (hay.drop i))

/-- First directory preferred by the scan of run_weibo_search.py lines
206-214: the first entry that is a directory and (when a preferred name is
given) whose name contains it; otherwise the first directory at all. -/
def pickDir (prefer : Option Str) (fs : Fs) : Option DirEntry :=
  match fs.entries.find? (fun d =>
      d.isDir && (prefer.isNone || strContains d.name (prefer.getD []))) with
  | some d => some d
  | none => (fs.entries.filter (fun d => d.isDir)).head?

/-- Within the chosen directory, the opened target (run_weibo_search.py
lines 216-218): the first csv file, or the directory itself. -/
def pickTarget (prefer : Option Str) (fs : Fs) : Option Str :=
  match pickDir prefer fs with
  | none => none
  | some d => some (d.csvFiles.headD d.name)

/-- Translation of the artifact discovery block (run_weibo_search.py lines
190-227).  The surrounding `try` has only a `finally` clause, so an
AttributeError raised by `restore_hashtag` on a conjunction leading element
propagates.  The result is the opened target path, or `none` when nothing
was found. -/
def discover (kw_conv : List KwItem) (fs : Fs) : Except PyErr (Option Str) :=
  if fs.resultsBaseExists then
    match kw_conv with
    | [] => Except.ok (pickTarget none fs)
    | item :: _ =>
      match restore_item item with
      | Except.error e => Except.error e
      | Except.ok prefer_name => Except.ok (pickTarget (some prefer_name) fs)
  else Except.ok none

/-- The crawl-engine-facing configuration surface of `SearchSpider`: the
class attributes overwritten by `run_spider` plus the two settings keys it
writes. -/
structure SpiderCfg where
  keyword_list : List KwItem
  settings_KEYWORD_LIST : List KwItem
  weibo_type : Str
  contain_type : Str
  start_date : Str
  end_date : Str
  regions : List Str
  settings_REGION : List Str
deriving DecidableEq, Repr

/-- External collaborators of `run_spider`: the weibo.utils converters and
the region resolver (pure lookups owned by the crawl engine). -/
structure Collab where
  convert_weibo_type : Int → Str
  convert_contain_type : Int → Str
  get_regions : List Str → List Str

/-- Everything one call of `run_spider` did: the configuration left behind,
whether a crawl-engine instance was started, and the outcome — an uncaught
exception or the discovered artifact target. -/
structure RunTrace where
  cfg : SpiderCfg
  engineStarted : Bool
  outcome : Except PyErr (Option Str)

/-- Translation of `run_spider` (run_weibo_search.py lines 110-227): parse
the form fields, convert them, overwrite the spider class attributes (the
keyword expression only when non-empty, the regions only when resolved
non-empty), start the engine, and run artifact discovery. -/
def run_spider (co : Collab) (fs : Fs) (p : Params) (cfg : SpiderCfg) : RunTrace :=
  let kw_conv := kw_conv_of (get_default p ("keywords".data) [])
  match int_field p ("weibo_type".data) with
  | Except.error e => ⟨cfg, false, Except.error e⟩
  | Except.ok weibo_type =>
    match int_field p ("contain_type".data) with
    | Except.error e => ⟨cfg, false, Except.error e⟩
    | Except.ok contain_type =>
      let region_raw := get_default p ("region".data) sentinelRegion
      let rl := region_list region_raw
      let regions_conv :=
        match resolver_arg region_raw with
        | none => []
        | some arg => co.get_regions arg
      let cfg1 :=
        if kw_conv ≠ [] then
          { cfg with keyword_list := kw_conv, settings_KEYWORD_LIST := kw_conv }
        else cfg
      let cfg2 :=
        { cfg1 with
            weibo_type := co.convert_weibo_type weibo_type
            contain_type := co.convert_contain_type contain_type
            start_date := start_date_of p
            end_date := end_date_of p }
      let cfg3 :=
        if regions_conv ≠ [] then
          { cfg2 with regions := regions_conv, settings_REGION := rl }
        else cfg2
      ⟨cfg3, true, discover kw_conv fs⟩

/-- Hexadecimal digit value, if any. -/
def hexDigit? (c : Char) : Option Nat :=
  if c.isDigit then some (c.toNat - 48)
  else if 'a' ≤ c ∧ c ≤ 'f' then some (c.toNat - 87)
  else if 'A' ≤ c ∧ c ≤ 'F' then some (c.toNat - 55)
  else none

/-- UTF-8 encoding of one character, as a byte list. -/
def charUtf8 (c : Char) : List Nat :=
  let n := c.toNat
  if n < 128 then [n]
  else if n < 2048 then [192 + n / 64, 128 + n % 64]
  else if n < 65536 then [224 + n / 4096, 128 + n / 64 % 64, 128 + n % 64]
  else [240 + n / 262144, 128 + n / 4096 % 64, 128 + n / 64 % 64, 128 + n % 64]

/-- The Unicode replacement character used for undecodable bytes. -/
def repChar : Char := Char.ofNat 65533

/-- Whether a byte is a UTF-8 continuation byte. -/
def isCont (b : Nat) : Bool := 128 ≤ b && b ≤ 191

/-- UTF-8 decoding with replacement of invalid sequences (the
errors-replace policy of Python decoding), written with a step-count fuel
so that the recursion is structural; the wrapper supplies enough fuel. -/
def utf8DecodeGo : Nat → List Nat → List Char
  | 0, _ => []
  | _, [] => []
  | fuel + 1, b :: bs =>
    if b < 128 then Char.ofNat b :: utf8DecodeGo fuel bs
    else if 194 ≤ b && b ≤ 223 then
      match bs with
      | b2 :: bs' =>
        if isCont b2 then Char.ofNat ((b - 192) * 64 + (b2 - 128)) :: utf8DecodeGo fuel bs'
        else repChar :: utf8DecodeGo fuel bs
      | [] => [repChar]
    else if 224 ≤ b && b ≤ 239 then
      match bs with
      | b2 :: b3 :: bs' =>
        if isCont b2 && isCont b3 then
          let n := (b - 224) * 4096 + (b2 - 128) * 64 + (b3 - 128)
          if 2048 ≤ n && (n < 55296 || 57343 < n) then Char.ofNat n :: utf8DecodeGo fuel bs'
          else repChar :: utf8DecodeGo fuel bs
        else repChar :: utf8DecodeGo fuel bs
      | _ => [repChar]
    else if 240 ≤ b && b ≤ 244 then
      match bs with
      | b2 :: b3 :: b4 :: bs' =>
        if isCont b2 && isCont b3 && isCont b4 then
          let n := (b - 240) * 262144 + (b2 - 128) * 4096 + (b3 - 128) * 64 + (b4 - 128)
          if 65536 ≤ n && n ≤ 1114111 then Char.ofNat n :: utf8DecodeGo fuel bs'
          else repChar :: utf8DecodeGo fuel bs
        else repChar :: utf8DecodeGo fuel bs
      | _ => [repChar]
    else repChar :: utf8DecodeGo fuel bs

def utf8Decode (bs : List Nat) : List Char := utf8DecodeGo bs.length bs

/-- Percent-unescaping into a byte stream: a `%hh` escape contributes its
byte, every other character its UTF-8 bytes. -/
def percentBytes : Str → List Nat
  | [] => []
  | '%' :: h1 :: h2 :: rest =>
    match hexDigit? h1, hexDigit? h2 with
    | some a, some b => (a * 16 + b) :: percentBytes rest
    | _, _ => charUtf8 '%' ++ percentBytes (h1 :: h2 :: rest)
  | c :: rest => charUtf8 c ++ percentBytes rest

/-- Model of `urllib.parse.unquote` with UTF-8 decoding and replacement. -/
def unquote (s : Str) : Str := utf8Decode (percentBytes s)

/-- Model of the query-string unquoting of `parse_qs`: plus signs become
spaces, then percent escapes are decoded. -/
def unquote_plus (s : Str) : Str :=
  unquote (s.map (fun c => if c = '+' then ' ' else c))

/-- The ampersand-separated segments of a query string. -/
def splitAmp (body : Str) : List Str := chunksP (fun c => c = '&') body

/-- Model of Python `s.split(sep, 1)` on the equals sign: the part before
the first equals sign and the part after it, or nothing when the string
holds no equals sign. -/
def splitFirstEq (nv : Str) : Option (Str × Str) :=
  if '=' ∈ nv then
    some (nv.takeWhile (fun c => c ≠ '='), (nv.dropWhile (fun c => c ≠ '=')).tail)
  else none

/-- Model of `urllib.parse.parse_qsl` with its default arguments: empty
segments are skipped, a segment without an equals sign is skipped, a pair
whose value part is empty is skipped (keep_blank_values is false), and name
and value are unquoted. -/
def parse_qsl (body : Str) : List (Str × Str) :=
  (splitAmp body).filterMap (fun nv =>
    if nv = [] then none
    else
      match splitFirstEq nv with
      | none => none
      | some (n, v) =>
        if v = [] then none else some (unquote_plus n, unquote_plus v))

/-- Keeping only the first pair for every key: together with `parse_qsl`
this is the flattening `⟨fun kv => kv[0]⟩` of the handler
(run_weibo_search.py line 249) — the dictionary built by `parse_qs` holds
each key once with its values in occurrence order, and the comprehension
keeps the head of each list. -/
def dedupGo (seen : List Str) : List (Str × Str) → List (Str × Str)
  | [] => []
  | q :: rest =>
    if seen.contains q.1 then dedupGo seen rest
    else q :: dedupGo (q.1 :: seen) rest

/-- The flattened form submission handed to `run_spider`. -/
def flattened (body : Str) : Params := dedupGo [] (parse_qsl body)

/-- The decoded values of every occurrence of a field in the body, in
order, without the blank-value dropping of `parse_qsl` — the values as
submitted. -/
def raw_field_values (body k : Str) : List Str :=
  (splitAmp body).filterMap (fun nv =>
    match splitFirstEq nv with
    | none => none
    | some (n, v) => if unquote_plus n = k then some (unquote_plus v) else none)

/-- The mutable process-level state seen by the request handler: the spider
configuration and how many crawl-engine instances were started. -/
structure ServerState where
  cfg : SpiderCfg
  engineStarts : Nat

/-- Outcome of handling one request: a sent response, a propagated
exception, or the 404 branch. -/
inductive HandlerResult
  | response (code : Nat) (body : Str)
  | raised (e : PyErr)
  | notFound
deriving DecidableEq, Repr

/-- Translation of `RequestHandler.do_POST` (run_weibo_search.py lines
243-268): on the run path, flatten the form body, call `run_spider`
synchronously, then send the completion page; any other path yields 404.
There is no guard of any kind before `run_spider`. -/
def do_POST (co : Collab) (fs : Fs) (path body : Str) (s : ServerState) :
    HandlerResult × ServerState :=
  if path = "/run".data then
    let p := flattened body
    let tr := run_spider co fs p s.cfg
    let s' : ServerState := ⟨tr.cfg, s.engineStarts + (if tr.engineStarted then 1 else 0)⟩
    match tr.outcome with
    | Except.error e => (HandlerResult.raised e, s')
    | Except.ok _ => (HandlerResult.response 200 ("爬取完成，请关闭此页面。".data), s')
  else (HandlerResult.notFound, s)

/-! Basic lemmas about the Python string primitives. -/

theorem sl_crlf (t : Str) : pySplitlines ('\r' :: '\n' :: t) = [] :: pySplitlines t := rfl

theorem sl_bd {a : Char} (t : Str) (h : isLineBoundary a = true)
    (h2 : ¬(a = '\r' ∧ t.head? = some '\n')) :
    pySplitlines (a :: t) = [] :: pySplitlines t := by
  have hg : ∀ t1 : Str, a = '\r' → t = '\n' :: t1 → False := by
    intro t1 ha ht
    exact h2 ⟨ha, by rw [ht]; rfl⟩
  rw [pySplitlines.eq_3 a t hg, if_pos h]

theorem sl_nb {a : Char} (t : Str) (h : isLineBoundary a = false) :
    pySplitlines (a :: t) =
      match pySplitlines t with
      | [] => [[a]]
      | l :: r => (a :: l) :: r := by
  have hg : ∀ t1 : Str, a = '\r' → t = '\n' :: t1 → False := by
    intro t1 ha ht
    subst ha
    simp [isLineBoundary, lineBoundaryChars] at h
  rw [pySplitlines.eq_3 a t hg, if_neg (by simp [h])]

theorem pyStrip_nil : pyStrip [] = [] := rfl

theorem pyStrip_cons_space {c : Char} (l : Str) (h : isPySpace c = true) :
    pyStrip (c :: l) = pyStrip l := by
  simp [pyStrip, List.dropWhile_cons_of_pos h]

theorem pyStrip_concat_space {c : Char} (l : Str) (h : isPySpace c = true) :
    pyStrip (l ++ [c]) = pyStrip l := by
  unfold pyStrip
  rw [List.dropWhile_append]
  by_cases he : (l.dropWhile isPySpace).isEmpty
  · rw [if_pos he]
    rw [List.isEmpty_iff] at he
    rw [he, List.dropWhile_cons_of_pos h]
    simp
  · rw [if_neg he]
    exact List.rdropWhile_concat_pos _ _ _ h

theorem pyStrip_all_space {l : Str} (h : ∀ c ∈ l, isPySpace c = true) : pyStrip l = [] := by
  induction l with
  | nil => rfl
  | cons c t ih =>
    rw [pyStrip_cons_space t (h c (List.mem_cons_self c t))]
    exact ih (fun d hd => h d (List.mem_cons_of_mem c hd))

theorem pyStrip_eq_self {a b : Char} (m : Str) (ha : isPySpace a = false)
    (hb : isPySpace b = false) : pyStrip (a :: (m ++ [b])) = a :: (m ++ [b]) := by
  unfold pyStrip
  rw [List.dropWhile_cons_of_neg (by simp [ha]), ← List.cons_append,
    List.rdropWhile_concat_neg _ _ _ (by simp [hb])]

theorem chunksP_cons_pos {p : Char → Bool} {a : Char} (t : Str) (h : p a = true) :
    chunksP p (a :: t) = [] :: chunksP p t := by
  simp [chunksP, h]

theorem chunksP_cons_neg {p : Char → Bool} {a : Char} (t : Str) (h : p a = false) :
    chunksP p (a :: t) =
      match chunksP p t with
      | [] => [[a]]
      | l :: r => (a :: l) :: r := by
  simp [chunksP, h]

theorem chunksP_ne_nil (p : Char → Bool) (s : Str) : chunksP p s ≠ [] := by
  cases s with
  | nil => simp [chunksP]
  | cons a t =>
    by_cases h : p a = true
    · rw [chunksP_cons_pos t h]; simp
    · rw [chunksP_cons_neg t (by simpa using h)]
      cases chunksP p t <;> simp

theorem chunksP_concat {p : Char → Bool} {c : Char} (s : Str) (h : p c = true) :
    chunksP p (s ++ [c]) = chunksP p s ++ [[]] := by
  induction s with
  | nil =>
    simp only [List.nil_append]
    rw [chunksP_cons_pos [] h]
    rfl
  | cons a t ih =>
    by_cases ha : p a = true
    · rw [List.cons_append, chunksP_cons_pos (t ++ [c]) ha, ih, chunksP_cons_pos t ha]
      rfl
    · have ha' : p a = false := by simpa using ha
      rw [List.cons_append, chunksP_cons_neg (t ++ [c]) ha', ih, chunksP_cons_neg t ha']
      cases hct : chunksP p t with
      | nil => exact absurd hct (chunksP_ne_nil p t)
      | cons l r => simp

theorem mem_chunksP_not {p : Char → Bool} {t : Str} {s : Str} (hm : t ∈ chunksP p s) :
    ∀ c ∈ t, p c = false := by
  induction s generalizing t with
  | nil =>
    simp [chunksP] at hm
    subst hm
    simp
  | cons a r ih =>
    by_cases ha : p a = true
    · rw [chunksP_cons_pos r ha] at hm
      rcases List.mem_cons.mp hm with h | h
      · subst h; simp
      · exact ih h
    · have ha' : p a = false := by simpa using ha
      rw [chunksP_cons_neg r ha'] at hm
      cases hcr : chunksP p r with
      | nil => exact absurd hcr (chunksP_ne_nil p r)
      | cons l rest =>
        rw [hcr] at hm
        rcases List.mem_cons.mp hm with h | h
        · subst h
          intro c hc
          rcases List.mem_cons.mp hc with h | h
          · subst h; simpa using ha
          · exact ih (by rw [hcr]; exact List.mem_cons_self l rest) c h
        · exact ih (by rw [hcr]; exact List.mem_cons_of_mem l h)

theorem pySplitWS_dropWhile (l : Str) :
    pySplitWS (l.dropWhile isPySpace) = pySplitWS l := by
  induction l with
  | nil => rfl
  | cons c t ih =>
    by_cases h : isPySpace c = true
    · rw [List.dropWhile_cons_of_pos h, ih]
      unfold pySplitWS
      rw [chunksP_cons_pos t h]
      simp
    · rw [List.dropWhile_cons_of_neg (by simpa using h)]

theorem pySplitWS_rdropWhile (l : Str) :
    pySplitWS (l.rdropWhile isPySpace) = pySplitWS l := by
  induction l using List.reverseRecOn with
  | nil => rfl
  | append_singleton t c ih =>
    by_cases h : isPySpace c = true
    · rw [List.rdropWhile_concat_pos _ _ _ h, ih]
      unfold pySplitWS
      rw [chunksP_concat t h]
      simp
    · rw [List.rdropWhile_concat_neg _ _ _ (by simpa using h)]

theorem pySplitWS_strip (l : Str) : pySplitWS (pyStrip l) = pySplitWS l := by
  unfold pyStrip
  rw [pySplitWS_rdropWhile, pySplitWS_dropWhile]

theorem mem_pySplitWS_no_space {t l : Str} (hm : t ∈ pySplitWS l) :
    ∀ c ∈ t, isPySpace c = false :=
  mem_chunksP_not (List.mem_of_mem_filter hm)

theorem pySplitWS_ne_nil {l : Str} (h : pyStrip l ≠ []) : pySplitWS l ≠ [] := by
  rw [← pySplitWS_dropWhile]
  cases hd : l.dropWhile isPySpace with
  | nil => exact absurd (by unfold pyStrip; rw [hd]; rfl) h
  | cons c rest =>
    have hc : isPySpace c = false := by
      have h2 := List.head?_dropWhile_not isPySpace l
      rw [hd] at h2
      exact h2
    unfold pySplitWS
    rw [chunksP_cons_neg rest hc]
    cases hcr : chunksP isPySpace rest with
    | nil => exact absurd hcr (chunksP_ne_nil _ rest)
    | cons a r => simp

/-! Hashtag encoding and decoding. -/

theorem conv_token_encode {X : Str} (hX : X ≠ []) :
    conv_token ('#' :: (X ++ ['#'])) = hashEscape ++ (X ++ hashEscape) := by
  have hstrip : pyStrip ('#' :: (X ++ ['#'])) = '#' :: (X ++ ['#']) :=
    pyStrip_eq_self X (by decide) (by decide)
  have hcond : 2 < ('#' :: (X ++ ['#'])).length ∧
      ('#' :: (X ++ ['#'])).head? = some '#' ∧
      ('#' :: (X ++ ['#'])).getLast? = some '#' := by
    refine ⟨?_, rfl, ?_⟩
    · simp only [List.length_cons, List.length_append, List.length_singleton]
      have := List.length_pos.mpr hX
      omega
    · rw [← List.cons_append]
      exact List.getLast?_concat _
  simp only [conv_token, hstrip, if_pos hcond]
  rw [List.drop_succ_cons, List.drop_zero, List.dropLast_concat]

theorem restore_encoded (X : Str) :
    restore_hashtag (hashEscape ++ (X ++ hashEscape)) = '#' :: (X ++ ['#']) := by
  have hpre : hashEscape.isPrefixOf (hashEscape ++ (X ++ hashEscape)) = true := by
    rw [List.isPrefixOf_iff_prefix]
    exact List.prefix_append _ _
  have hsuf : hashEscape.isSuffixOf (hashEscape ++ (X ++ hashEscape)) = true := by
    rw [List.isSuffixOf_iff_suffix, ← List.append_assoc]
    exact List.suffix_append _ _
  have hdrop : (hashEscape ++ (X ++ hashEscape)).drop 3 = X ++ hashEscape :=
    List.drop_left' rfl
  have hlen : (hashEscape ++ (X ++ hashEscape)).length - 6 = X.length := by
    simp [hashEscape]
  have htake : (X ++ hashEscape).take X.length = X := List.take_left' rfl
  simp only [restore_hashtag, if_pos (And.intro hpre hsuf), hdrop, hlen, htake]

theorem encode_inj {X Y : Str}
    (h : hashEscape ++ (X ++ hashEscape) = hashEscape ++ (Y ++ hashEscape)) : X = Y :=
  List.append_cancel_right (List.append_cancel_left h)

/-- C4: for every token of the form hash-X-hash with X non-empty, hashtag
encoding yields the reserved three-character escape, then X, then the same
escape; this encoding is injective on such tokens; and hashtag restoration
applied to the encoded form reproduces the original token exactly. -/
theorem claim_C4_hashtag_bijection (X : Str) (hX : X ≠ []) :
    conv_token ('#' :: (X ++ ['#'])) = hashEscape ++ (X ++ hashEscape) ∧
    (∀ Y : Str, Y ≠ [] →
        conv_token ('#' :: (X ++ ['#'])) = conv_token ('#' :: (Y ++ ['#'])) → X = Y) ∧
    restore_hashtag (conv_token ('#' :: (X ++ ['#']))) = '#' :: (X ++ ['#']) := by
  refine ⟨conv_token_encode hX, ?_, ?_⟩
  · intro Y hY h
    rw [conv_token_encode hX, conv_token_encode hY] at h
    exact encode_inj h
  · rw [conv_token_encode hX]
    exact restore_encoded X

/-- Witness for C4 at the token of the specification scenario. -/
theorem claim_C4_hashtag_bijection_witness :
    ("活动".data : Str) ≠ [] ∧
    restore_hashtag (conv_token ('#' :: ("活动".data ++ ['#']))) =
      '#' :: ("活动".data ++ ['#']) :=
  ⟨by decide, (claim_C4_hashtag_bijection ("活动".data) (by decide)).2.2⟩

/-- C7: an absent or empty submitted date field compiles to the fixed
fallback date constant for that bound, and any non-empty submitted date
string is passed through unchanged (unvalidated). -/
theorem claim_C7_date_fallbacks (p : Params) :
    ((pget p ("start_date".data) = none ∨ pget p ("start_date".data) = some []) →
        start_date_of p = start_date_fallback) ∧
    (∀ s, pget p ("start_date".data) = some s → s ≠ [] → start_date_of p = s) ∧
    ((pget p ("end_date".data) = none ∨ pget p ("end_date".data) = some []) →
        end_date_of p = end_date_fallback) ∧
    (∀ s, pget p ("end_date".data) = some s → s ≠ [] → end_date_of p = s) := by
  refine ⟨?_, ?_, ?_, ?_⟩
  · rintro (h | h) <;> simp [start_date_of, getOrFallback, h]
  · intro s hs hne
    simp [start_date_of, getOrFallback, hs, hne]
  · rintro (h | h) <;> simp [end_date_of, getOrFallback, h]
  · intro s hs hne
    simp [end_date_of, getOrFallback, hs, hne]

/-- Witness for C7: absent fields select the fallbacks, a submitted
non-empty date is passed through. -/
theorem claim_C7_date_fallbacks_witness :
    start_date_of [] = start_date_fallback ∧
    end_date_of [] = end_date_fallback ∧
    start_date_of [(("start_date".data : Str), ("2024-01-01".data : Str))] =
      "2024-01-01".data :=
  ⟨(claim_C7_date_fallbacks []).1 (Or.inl rfl),
   (claim_C7_date_fallbacks []).2.2.1 (Or.inl rfl),
   (claim_C7_date_fallbacks [("start_date".data, "2024-01-01".data)]).2.1
     ("2024-01-01".data) rfl (by decide)⟩

/-- C2 counterexample: with region input holding the sentinel together with
another region, the sentinel value is forwarded to the resolver, against the
claim that it never is. -/
theorem claim_C2_counterexample :
    resolver_arg ("全部,北京".data) = some ["全部".data, "北京".data] ∧
    ("全部".data : Str) ∈ ["全部".data, "北京".data] := by
  exact ⟨rfl, by decide⟩

/-- The tokens carried by one compiled keyword directive. -/
def item_tokens : KwItem → List Str
  | KwItem.single s => [s]
  | KwItem.conj l => l

/-- All tokens placed into a compiled keyword expression. -/
def expr_tokens (items : List KwItem) : List Str := (items.map item_tokens).flatten

theorem pySplitWS_filter_self (l : Str) :
    (pySplitWS l).filter (fun t => t ≠ []) = pySplitWS l := by
  unfold pySplitWS
  rw [List.filter_filter]
  simp

theorem pyStrip_no_space {t : Str} (h : ∀ c ∈ t, isPySpace c = false) : pyStrip t = t := by
  unfold pyStrip
  have hd : t.dropWhile isPySpace = t := by
    cases t with
    | nil => rfl
    | cons c r => exact List.dropWhile_cons_of_neg (by simp [h c (List.mem_cons_self c r)])
  rw [hd, List.rdropWhile_eq_self_iff]
  intro hl
  simp [h _ (List.getLast_mem hl)]

theorem keyword_tokens_no_space {raw t : Str}
    (ht : t ∈ expr_tokens (keyword_items raw)) : ∀ c ∈ t, isPySpace c = false := by
  obtain ⟨ts, hts, htt⟩ := List.mem_flatten.mp ht
  obtain ⟨item, hitem, rfl⟩ := List.mem_map.mp hts
  simp only [keyword_items] at hitem
  by_cases hk : pyStrip raw = []
  · rw [if_pos hk] at hitem
    simp at hitem
  · rw [if_neg hk] at hitem
    obtain ⟨line, _, hfl⟩ := List.mem_filterMap.mp hitem
    simp only [line_item] at hfl
    by_cases hl : pyStrip line = []
    · rw [if_pos hl] at hfl
      exact absurd hfl (by simp)
    · rw [if_neg hl] at hfl
      have hsub : ∀ u ∈ (pySplitWS (pyStrip line)).filter (fun t => t ≠ []),
          ∀ c ∈ u, isPySpace c = false := by
        intro u hu
        have hu2 : u ∈ pySplitWS (pyStrip line) := List.mem_of_mem_filter hu
        rw [pySplitWS_strip] at hu2
        exact mem_pySplitWS_no_space hu2
      by_cases h0 : (pySplitWS (pyStrip line)).filter (fun t => t ≠ []) = []
      · rw [if_pos h0] at hfl
        exact absurd hfl (by simp)
      · rw [if_neg h0] at hfl
        by_cases h1 : 1 < ((pySplitWS (pyStrip line)).filter (fun t => t ≠ [])).length
        · rw [if_pos h1] at hfl
          have := Option.some.inj hfl
          subst this
          exact hsub t htt
        · rw [if_neg h1] at hfl
          have := Option.some.inj hfl
          subst this
          simp only [item_tokens, List.mem_singleton] at htt
          subst htt
          rcases hts2 : (pySplitWS (pyStrip line)).filter (fun t => t ≠ []) with _ | ⟨u, r⟩
          · exact absurd hts2 h0
          · rw [hts2]
            exact hsub u (by rw [hts2]; exact List.mem_cons_self u r)

/-- C6: every token placed into the compiled expression is left unchanged by
hashtag encoding whenever it is shorter than 3 characters or not bounded by
a hash on both ends; only the tokens of length at least 3 that both start
and end with a hash are transformed. -/
theorem claim_C6_encoding_passthrough (raw t : Str)
    (ht : t ∈ expr_tokens (keyword_items raw)) :
    ((t.length < 3 ∨ ¬(t.head? = some '#' ∧ t.getLast? = some '#')) → conv_token t = t) ∧
    (2 < t.length → t.head? = some '#' → t.getLast? = some '#' →
        conv_token t = hashEscape ++ ((t.drop 1).dropLast ++ hashEscape) ∧
        conv_token t ≠ t) := by
  have hstrip : pyStrip t = t := pyStrip_no_space (keyword_tokens_no_space ht)
  constructor
  · intro hcond
    simp only [conv_token, hstrip]
    rw [if_neg]
    rintro ⟨hlen, hhead, hlast⟩
    rcases hcond with h | h
    · omega
    · exact h ⟨hhead, hlast⟩
  · intro h1 h2 h3
    simp only [conv_token, hstrip]
    rw [if_pos ⟨h1, h2, h3⟩]
    refine ⟨rfl, ?_⟩
    intro heq
    have hpc : (hashEscape ++ ((t.drop 1).dropLast ++ hashEscape)).head? = some '%' := rfl
    rw [heq, h2] at hpc
    exact absurd (Option.some.inj hpc) (by decide)

/-- Witness for C6 on the input line "ab #xy#": the short token passes
through unchanged and the hash-bounded token is transformed. -/
theorem claim_C6_encoding_passthrough_witness :
    conv_token ("ab".data) = "ab".data ∧ conv_token ("#xy#".data) ≠ "#xy#".data :=
  ⟨(claim_C6_encoding_passthrough ("ab #xy#".data) ("ab".data) (by decide)).1
      (Or.inl (by decide)),
   ((claim_C6_encoding_passthrough ("ab #xy#".data) ("#xy#".data) (by decide)).2
      (by decide) (by decide) (by decide)).2⟩

/-- C2 as amended: after splitting on commas and trimming, an empty result
or the single sentinel value yields an empty resolved region set (resolver
skipped); the sentinel is withheld from the resolver only when it is the
sole surviving piece — any other non-empty piece list is forwarded whole,
sentinel included when present. -/
theorem claim_C2_amended (raw : Str) :
    resolver_arg raw =
      if region_pieces raw = [] ∨ region_pieces raw = [sentinelRegion] then none
      else some (region_pieces raw) := by
  unfold resolver_arg region_list
  rcases hp : region_pieces raw with _ | ⟨x, r⟩
  · simp
  · rcases r with _ | ⟨y, r'⟩
    · by_cases hx : x = sentinelRegion
      · subst hx
        simp
      · simp [hx]
    · simp

/-! Flattening of the parsed POST body. -/

theorem pget_dedupGo (l : List (Str × Str)) (seen : List Str) (k : Str) :
    pget (dedupGo seen l) k =
      if seen.contains k then none
      else (l.find? (fun q => q.1 = k)).map (fun q => q.2) := by
  induction l generalizing seen with
  | nil => simp [dedupGo, pget]
  | cons q rest ih =>
    simp only [dedupGo]
    by_cases hs : seen.contains q.1
    · rw [if_pos hs, ih]
      by_cases hk : q.1 = k
      · subst hk
        rw [if_pos hs, if_pos hs]
      · rw [List.find?_cons]
        have : (decide (q.1 = k)) = false := by simpa using hk
        rw [this]
    · rw [if_neg hs]
      by_cases hk : q.1 = k
      · subst hk
        rw [if_neg hs]
        simp only [pget, List.find?_cons, decide_True]
      · have hpq : pget (q :: dedupGo (q.1 :: seen) rest) k =
            pget (dedupGo (q.1 :: seen) rest) k := by
          simp only [pget, List.find?_cons]
          have : (decide (q.1 = k)) = false := by simpa using hk
          rw [this]
        rw [hpq, ih]
        have hc : (q.1 :: seen).contains k = seen.contains k := by
          have hb : (k == q.1) = false := beq_eq_false_iff_ne.mpr (fun h => hk h.symm)
          rw [List.contains_cons, hb, Bool.false_or]
        rw [hc, List.find?_cons]
        have : (decide (q.1 = k)) = false := by simpa using hk
        rw [this]

/-- C10 counterexample: for the body holding the field twice, first with an
empty value, the FormSubmission does not keep the first submitted value (the
empty string) — it holds the later one, because the query-string parsing
drops blank-valued occurrences before the flattening keeps a first value. -/
theorem claim_C10_counterexample :
    (raw_field_values ("a=&a=2".data) ("a".data)).head? = some [] ∧
    pget (flattened ("a=&a=2".data)) ("a".data) = some ("2".data) :=
  ⟨rfl, rfl⟩

/-- C10 as amended: occurrences whose value is empty (and segments without
an equals sign) are discarded by the query-string parsing; among the
surviving occurrences of each field, exactly the first value is kept in the
FormSubmission and every later occurrence is ignored. -/
theorem claim_C10_amended (body k : Str) :
    pget (flattened body) k =
      ((parse_qsl body).find? (fun q => q.1 = k)).map (fun q => q.2) := by
  unfold flattened
  rw [pget_dedupGo]
  simp

/-! Invariance of the non-blank line structure under whole-text stripping.
The keyword loop operates on the lines of the stripped field; these lemmas
show the stripped lines that survive blank-line filtering are the same for
the stripped text and for the raw text. -/

/-- The stripped forms of the non-blank entries of a line list. -/
def nonblankStripped (L : List Str) : List Str :=
  (L.map pyStrip).filter (fun l => l ≠ [])

theorem nbs_nil : nonblankStripped [] = [] := rfl

theorem nbs_cons (l : Str) (L : List Str) :
    nonblankStripped (l :: L) =
      if pyStrip l = [] then nonblankStripped L
      else pyStrip l :: nonblankStripped L := by
  unfold nonblankStripped
  rw [List.map_cons, List.filter_cons]
  by_cases h : pyStrip l = []
  · simp [h]
  · simp [h]

theorem nbs_append (L1 L2 : List Str) :
    nonblankStripped (L1 ++ L2) = nonblankStripped L1 ++ nonblankStripped L2 := by
  unfold nonblankStripped
  rw [List.map_append, List.filter_append]

theorem nbs_sl_cons_space {a : Char} (t : Str) (h : isPySpace a = true) :
    nonblankStripped (pySplitlines (a :: t)) = nonblankStripped (pySplitlines t) := by
  by_cases hb : isLineBoundary a = true
  · by_cases hcr : a = '\r' ∧ t.head? = some '\n'
    · obtain ⟨ha, ht⟩ := hcr
      subst ha
      cases t with
      | nil => simp at ht
      | cons b t' =>
        have hbn : b = '\n' := by simpa using ht
        subst hbn
        rw [sl_crlf t', sl_bd t' (by decide) (by simp), nbs_cons]
    · rw [sl_bd t hb hcr, nbs_cons]
      simp [pyStrip_nil]
  · have hb' : isLineBoundary a = false := by simpa using hb
    rw [sl_nb t hb']
    cases hst : pySplitlines t with
    | nil =>
      have h1 : pyStrip [a] = [] := by
        rw [pyStrip_cons_space [] h, pyStrip_nil]
      simp [nbs_cons, h1, nbs_nil]
    | cons l r =>
      rw [nbs_cons, nbs_cons, pyStrip_cons_space l h]

theorem nbs_sl_dropWhile (t : Str) :
    nonblankStripped (pySplitlines (t.dropWhile isPySpace)) =
      nonblankStripped (pySplitlines t) := by
  induction t with
  | nil => rfl
  | cons c r ih =>
    by_cases h : isPySpace c = true
    · rw [List.dropWhile_cons_of_pos h, ih, nbs_sl_cons_space r h]
    · rw [List.dropWhile_cons_of_neg (by simpa using h)]

theorem sl_single (c : Char) :
    pySplitlines [c] = if isLineBoundary c = true then [[]] else [[c]] := by
  by_cases hb : isLineBoundary c = true
  · rw [sl_bd [] hb (by simp), if_pos hb]
    rfl
  · rw [sl_nb [] (by simpa using hb), if_neg hb]
    rfl

/-- Effect on the line decomposition of appending one character: either a
fresh final line appears (empty after a boundary, or holding the character),
or the character extends the last line, or a boundary closes an already
complete decomposition. -/
theorem sl_append_aux (c : Char) : ∀ (n : Nat) (l : Str), l.length ≤ n →
    (isLineBoundary c = true ∧ pySplitlines (l ++ [c]) = pySplitlines l ++ [[]])
    ∨ (isLineBoundary c = false ∧ pySplitlines (l ++ [c]) = pySplitlines l ++ [[c]])
    ∨ (∃ L h0, pySplitlines l = L ++ [h0] ∧
         pySplitlines (l ++ [c]) = L ++ [h0 ++ [c]])
    ∨ (isLineBoundary c = true ∧ pySplitlines (l ++ [c]) = pySplitlines l) := by
  intro n
  induction n with
  | zero =>
    intro l hl
    have h0 : l = [] := List.length_eq_zero.mp (Nat.le_zero.mp hl)
    subst h0
    rw [List.nil_append, sl_single c]
    by_cases hb : isLineBoundary c = true
    · exact Or.inl ⟨hb, by rw [if_pos hb]; rfl⟩
    · exact Or.inr (Or.inl ⟨by simpa using hb, by rw [if_neg hb]; rfl⟩)
  | succ n ih =>
    intro l hl
    cases l with
    | nil =>
      rw [List.nil_append, sl_single c]
      by_cases hb : isLineBoundary c = true
      · exact Or.inl ⟨hb, by rw [if_pos hb]; rfl⟩
      · exact Or.inr (Or.inl ⟨by simpa using hb, by rw [if_neg hb]; rfl⟩)
    | cons a t =>
      have hlt : t.length ≤ n := by
        simpa using Nat.le_of_succ_le_succ (by simpa using hl)
      by_cases hba : isLineBoundary a = true
      · by_cases hcr : a = '\r' ∧ t.head? = some '\n'
        · obtain ⟨ha, hh⟩ := hcr
          subst ha
          cases t with
          | nil => simp at hh
          | cons b t' =>
            have hbn : b = '\n' := by simpa using hh
            subst hbn
            have hlt' : t'.length ≤ n := by
              simp only [List.length_cons] at hlt
              omega
            have hstep : ('\r' :: '\n' :: t') ++ [c] = '\r' :: '\n' :: (t' ++ [c]) := by
              simp
            rw [hstep, sl_crlf (t' ++ [c]), sl_crlf t']
            rcases ih t' hlt' with ⟨hb, he⟩ | ⟨hb, he⟩ | ⟨L, h0, he1, he2⟩ | ⟨hb, he⟩
            · exact Or.inl ⟨hb, by rw [he]; rfl⟩
            · exact Or.inr (Or.inl ⟨hb, by rw [he]; rfl⟩)
            · exact Or.inr (Or.inr (Or.inl ⟨[] :: L, h0, by rw [he1]; rfl,
                by rw [he2]; rfl⟩))
            · exact Or.inr (Or.inr (Or.inr ⟨hb, by rw [he]⟩))
        · cases t with
          | nil =>
            by_cases hac : a = '\r' ∧ c = '\n'
            · obtain ⟨ha, hc⟩ := hac
              subst ha
              subst hc
              refine Or.inr (Or.inr (Or.inr ⟨by decide, ?_⟩))
              rw [show (['\r'] ++ ['\n'] : Str) = '\r' :: '\n' :: [] by rfl,
                sl_crlf [], sl_bd [] (by decide) (by simp)]
            · have hg : ¬(a = '\r' ∧ ([c] : Str).head? = some '\n') := by
                rintro ⟨ha, hc⟩
                exact hac ⟨ha, by simpa using hc⟩
              rw [show ([a] ++ [c] : Str) = a :: [c] by rfl, sl_bd [c] hba hg,
                sl_bd [] hba (by simp), sl_single c]
              by_cases hbc : isLineBoundary c = true
              · exact Or.inl ⟨hbc, by rw [if_pos hbc]; rfl⟩
              · exact Or.inr (Or.inl ⟨by simpa using hbc, by rw [if_neg hbc]; rfl⟩)
          | cons b t'' =>
            have hg2 : ¬(a = '\r' ∧ ((b :: t'') ++ [c]).head? = some '\n') := by
              rintro ⟨ha, hh2⟩
              exact hcr ⟨ha, by simpa using hh2⟩
            have hstep : (a :: (b :: t'')) ++ [c] = a :: ((b :: t'') ++ [c]) := by simp
            rw [hstep, sl_bd ((b :: t'') ++ [c]) hba hg2, sl_bd (b :: t'') hba hcr]
            rcases ih (b :: t'') hlt with ⟨hb, he⟩ | ⟨hb, he⟩ | ⟨L, h0, he1, he2⟩ | ⟨hb, he⟩
            · exact Or.inl ⟨hb, by rw [he]; rfl⟩
            · exact Or.inr (Or.inl ⟨hb, by rw [he]; rfl⟩)
            · exact Or.inr (Or.inr (Or.inl ⟨[] :: L, h0, by rw [he1]; rfl,
                by rw [he2]; rfl⟩))
            · exact Or.inr (Or.inr (Or.inr ⟨hb, by rw [he]⟩))
      · have hba' : isLineBoundary a = false := by simpa using hba
        have hstep : (a :: t) ++ [c] = a :: (t ++ [c]) := by simp
        rw [hstep, sl_nb (t ++ [c]) hba', sl_nb t hba']
        rcases ih t hlt with ⟨hb, he⟩ | ⟨hb, he⟩ | ⟨L, h0, he1, he2⟩ | ⟨hb, he⟩
        · rw [he]
          cases hst : pySplitlines t with
          | nil => exact Or.inr (Or.inr (Or.inr ⟨hb, rfl⟩))
          | cons x r => exact Or.inl ⟨hb, rfl⟩
        · rw [he]
          cases hst : pySplitlines t with
          | nil => exact Or.inr (Or.inr (Or.inl ⟨[], [a], rfl, rfl⟩))
          | cons x r => exact Or.inr (Or.inl ⟨hb, rfl⟩)
        · rw [he1, he2]
          cases L with
          | nil => exact Or.inr (Or.inr (Or.inl ⟨[], a :: h0, rfl, by simp⟩))
          | cons x L' => exact Or.inr (Or.inr (Or.inl ⟨(a :: x) :: L', h0, rfl, rfl⟩))
        · rw [he]
          exact Or.inr (Or.inr (Or.inr ⟨hb, rfl⟩))

theorem sl_append_single (c : Char) (l : Str) :
    (isLineBoundary c = true ∧ pySplitlines (l ++ [c]) = pySplitlines l ++ [[]])
    ∨ (isLineBoundary c = false ∧ pySplitlines (l ++ [c]) = pySplitlines l ++ [[c]])
    ∨ (∃ L h0, pySplitlines l = L ++ [h0] ∧
         pySplitlines (l ++ [c]) = L ++ [h0 ++ [c]])
    ∨ (isLineBoundary c = true ∧ pySplitlines (l ++ [c]) = pySplitlines l) :=
  sl_append_aux c l.length l le_rfl

theorem nbs_sl_concat_space {c : Char} (l : Str) (h : isPySpace c = true) :
    nonblankStripped (pySplitlines (l ++ [c])) =
      nonblankStripped (pySplitlines l) := by
  rcases sl_append_single c l with ⟨hb, he⟩ | ⟨hb, he⟩ | ⟨L, h0, he1, he2⟩ | ⟨hb, he⟩
  · rw [he, nbs_append]
    have h2 : nonblankStripped [[]] = [] := by
      rw [nbs_cons, if_pos pyStrip_nil, nbs_nil]
    rw [h2, List.append_nil]
  · rw [he, nbs_append]
    have h1 : pyStrip [c] = [] := by rw [pyStrip_cons_space [] h, pyStrip_nil]
    have h2 : nonblankStripped [[c]] = [] := by
      rw [nbs_cons, if_pos h1, nbs_nil]
    rw [h2, List.append_nil]
  · rw [he1, he2, nbs_append, nbs_append]
    congr 1
    rw [nbs_cons, nbs_cons, pyStrip_concat_space h0 h]
  · rw [he]

theorem nbs_sl_rdropWhile (l : Str) :
    nonblankStripped (pySplitlines (l.rdropWhile isPySpace)) =
      nonblankStripped (pySplitlines l) := by
  induction l using List.reverseRecOn with
  | nil => rfl
  | append_singleton t c ih =>
    by_cases h : isPySpace c = true
    · rw [List.rdropWhile_concat_pos _ _ _ h, ih, nbs_sl_concat_space t h]
    · rw [List.rdropWhile_concat_neg _ _ _ (by simpa using h)]

theorem nbs_sl_strip (l : Str) :
    nonblankStripped (pySplitlines (pyStrip l)) =
      nonblankStripped (pySplitlines l) := by
  unfold pyStrip
  rw [nbs_sl_rdropWhile, nbs_sl_dropWhile]

/-- The directive contributed by one non-blank line, described from the
line itself: its whitespace-separated tokens, as a conjunction exactly when
there is more than one of them, and as the bare first token otherwise. -/
def line_directive (line : Str) : KwItem :=
  let tks := pySplitWS line
  if 1 < tks.length then KwItem.conj tks else KwItem.single (tks.headD [])

theorem line_item_none {l : Str} (h : pyStrip l = []) : line_item l = none := by
  simp [line_item, h]

theorem line_item_eq_some {l : Str} (h : pyStrip l ≠ []) :
    line_item l = some (line_directive l) := by
  simp only [line_item]
  rw [if_neg h, pySplitWS_filter_self, pySplitWS_strip, if_neg (pySplitWS_ne_nil h)]
  by_cases hl : 1 < (pySplitWS l).length
  · simp [line_directive, hl]
  · simp [line_directive, hl]

theorem line_directive_strip (l : Str) : line_directive (pyStrip l) = line_directive l := by
  simp only [line_directive, pySplitWS_strip]

theorem filterMap_line_item (L : List Str) :
    L.filterMap line_item = (nonblankStripped L).map line_directive := by
  induction L with
  | nil => rfl
  | cons l L ih =>
    rw [List.filterMap_cons, nbs_cons]
    by_cases h : pyStrip l = []
    · rw [line_item_none h, if_pos h, ih]
    · rw [line_item_eq_some h, if_neg h, List.map_cons, line_directive_strip, ih]

theorem nbs_map_line_directive (M : List Str) :
    (nonblankStripped M).map line_directive =
      (M.filter (fun l => pyStrip l ≠ [])).map line_directive := by
  unfold nonblankStripped
  rw [List.filter_map, List.map_map]
  exact List.map_congr_left (fun l _ => line_directive_strip l)

/-- Main structural equation of the keyword compilation: one directive per
non-blank line of the raw text, in line order. -/
theorem keyword_items_eq (raw : Str) :
    keyword_items raw =
      ((pySplitlines raw).filter (fun l => pyStrip l ≠ [])).map line_directive := by
  simp only [keyword_items]
  by_cases hk : pyStrip raw = []
  · rw [if_pos hk]
    have h1 : nonblankStripped (pySplitlines raw) = [] := by
      rw [← nbs_sl_strip, hk]
      rfl
    unfold nonblankStripped at h1
    rw [List.filter_map] at h1
    have h2 : (pySplitlines raw).filter (fun l => pyStrip l ≠ []) = [] := by
      have := List.map_eq_nil_iff.mp h1
      convert this using 2
    rw [h2]
    rfl
  · rw [if_neg hk, filterMap_line_item, nbs_sl_strip, nbs_map_line_directive]

/-- C5: for every keywords text, the compiled expression has exactly one
element per non-blank line, in line order; an element is a conjunction
exactly when its source line held more than one whitespace-separated token,
and a single-token line yields the bare token itself.  The first equation
states this for the parsed structure, the second for the expression after
hashtag encoding (the form handed to the engine). -/
theorem claim_C5_line_structure (raw : Str) :
    keyword_items raw =
      ((pySplitlines raw).filter (fun l => pyStrip l ≠ [])).map line_directive ∧
    kw_conv_of raw =
      ((pySplitlines raw).filter (fun l => pyStrip l ≠ [])).map
        (fun l => conv_item (line_directive l)) := by
  refine ⟨keyword_items_eq raw, ?_⟩
  unfold kw_conv_of
  rw [keyword_items_eq raw, List.map_map]
  rfl

/-! Concrete model instances used by the closed witnesses and
counterexamples. -/

/-- Trivial external collaborators for concrete runs. -/
def collab0 : Collab := ⟨fun _ => [], fun _ => [], fun _ => []⟩

/-- An artifact root that does not exist. -/
def fs0 : Fs := ⟨false, []⟩

/-- The spider configuration induced by weibo/settings.py before any
override: KEYWORD_LIST, REGION, START_DATE and END_DATE defaults. -/
def cfg0 : SpiderCfg :=
  ⟨[KwItem.single ("东南大学".data)], [KwItem.single ("东南大学".data)],
   [], [], settings_START_DATE, settings_END_DATE, [], [sentinelRegion]⟩

/-- C8: with a keywords field that is empty or holds only blank lines, the
compiled keyword expression is empty, the spider's keyword configuration
(class attribute and KEYWORD_LIST setting) is left unchanged, and the other
directive fields — converted category code, converted media code and the two
dates — are still applied. -/
theorem claim_C8_empty_keywords_frame (co : Collab) (fs : Fs) (p : Params)
    (cfg : SpiderCfg) (wt ct : Int)
    (hbl : ∀ l ∈ pySplitlines (get_default p ("keywords".data) []), pyStrip l = [])
    (hwt : int_field p ("weibo_type".data) = Except.ok wt)
    (hct : int_field p ("contain_type".data) = Except.ok ct) :
    kw_conv_of (get_default p ("keywords".data) []) = [] ∧
    (run_spider co fs p cfg).cfg.keyword_list = cfg.keyword_list ∧
    (run_spider co fs p cfg).cfg.settings_KEYWORD_LIST = cfg.settings_KEYWORD_LIST ∧
    (run_spider co fs p cfg).cfg.weibo_type = co.convert_weibo_type wt ∧
    (run_spider co fs p cfg).cfg.contain_type = co.convert_contain_type ct ∧
    (run_spider co fs p cfg).cfg.start_date = start_date_of p ∧
    (run_spider co fs p cfg).cfg.end_date = end_date_of p := by
  have hkw : kw_conv_of (get_default p ("keywords".data) []) = [] := by
    have hfil : (pySplitlines (get_default p ("keywords".data) [])).filter
        (fun l => pyStrip l ≠ []) = [] := by
      rw [List.filter_eq_nil_iff]
      intro l hl
      simp [hbl l hl]
    unfold kw_conv_of
    rw [keyword_items_eq, hfil]
    rfl
  refine ⟨hkw, ?_⟩
  simp only [run_spider, hwt, hct, hkw]
  by_cases hr : (match resolver_arg (get_default p ("region".data) sentinelRegion) with
      | none => ([] : List Str)
      | some arg => co.get_regions arg) ≠ []
  · simp [hr]
  · simp [hr]

/-- Witness for C8: blank keyword lines leave the settings defaults in
place while the dates and codes are applied. -/
theorem claim_C8_empty_keywords_frame_witness :
    kw_conv_of (get_default [(("keywords".data : Str), ("  \n \n".data : Str))]
        ("keywords".data) []) = [] ∧
    (run_spider collab0 fs0 [(("keywords".data : Str), ("  \n \n".data : Str))]
        cfg0).cfg.keyword_list = cfg0.keyword_list ∧
    (run_spider collab0 fs0 [(("keywords".data : Str), ("  \n \n".data : Str))]
        cfg0).cfg.start_date = start_date_of
          [(("keywords".data : Str), ("  \n \n".data : Str))] := by
  have h := claim_C8_empty_keywords_frame collab0 fs0
    [(("keywords".data : Str), ("  \n \n".data : Str))] cfg0 0 0
    (by decide) rfl rfl
  exact ⟨h.1, h.2.1, h.2.2.2.2.2.1⟩

/-- C9: a present weibo_type or contain_type field whose value `int` cannot
parse makes the run fail with an uncaught ValueError before any
configuration override or engine start; the default of 0 is used only when
the field is entirely absent, and a present field is always parsed, never
defaulted. -/
theorem claim_C9_nonint_codes (co : Collab) (fs : Fs) (p : Params) (cfg : SpiderCfg) :
    (pget p ("weibo_type".data) = none → int_field p ("weibo_type".data) = Except.ok 0) ∧
    (pget p ("contain_type".data) = none → int_field p ("contain_type".data) = Except.ok 0) ∧
    (∀ v, pget p ("weibo_type".data) = some v → int_field p ("weibo_type".data) = pyInt v) ∧
    pyInt [] = Except.error PyErr.valueError ∧
    (∀ v, pget p ("weibo_type".data) = some v →
        pyInt v = Except.error PyErr.valueError →
        (run_spider co fs p cfg).outcome = Except.error PyErr.valueError ∧
        (run_spider co fs p cfg).engineStarted = false ∧
        (run_spider co fs p cfg).cfg = cfg) ∧
    (∀ n v, int_field p ("weibo_type".data) = Except.ok n →
        pget p ("contain_type".data) = some v →
        pyInt v = Except.error PyErr.valueError →
        (run_spider co fs p cfg).outcome = Except.error PyErr.valueError ∧
        (run_spider co fs p cfg).engineStarted = false ∧
        (run_spider co fs p cfg).cfg = cfg) := by
  refine ⟨?_, ?_, ?_, rfl, ?_, ?_⟩
  · intro h
    simp [int_field, h]
  · intro h
    simp [int_field, h]
  · intro v h
    simp [int_field, h]
  · intro v hv hpe
    have h1 : int_field p ("weibo_type".data) = Except.error PyErr.valueError := by
      simp [int_field, hv, hpe]
    simp [run_spider, h1]
  · intro n v hn hv hpe
    have h1 : int_field p ("contain_type".data) = Except.error PyErr.valueError := by
      simp [int_field, hv, hpe]
    simp [run_spider, hn, h1]

/-- Witness for C9 at the empty-string weibo_type value. -/
theorem claim_C9_nonint_codes_witness :
    (run_spider collab0 fs0 [(("weibo_type".data : Str), ([] : Str))] cfg0).outcome =
      Except.error PyErr.valueError ∧
    (run_spider collab0 fs0 [(("weibo_type".data : Str), ([] : Str))] cfg0).engineStarted =
      false ∧
    int_field ([] : Params) ("weibo_type".data) = Except.ok 0 := by
  have h := claim_C9_nonint_codes collab0 fs0
    [(("weibo_type".data : Str), ([] : Str))] cfg0
  have h2 := h.2.2.2.2.1 [] rfl rfl
  exact ⟨h2.1, h2.2.1, (claim_C9_nonint_codes collab0 fs0 [] cfg0).1 rfl⟩

/-- C3: artifact discovery does raise.  When the compiled expression leads
with a conjunction (a Python list), `restore_hashtag(kw_conv[0])` calls a
string method on a list and the AttributeError escapes the try/finally
block; the claimed behaviour — fall back to the first directory of the
enumeration, never raising — is what the scan would do without a preferred
name, shown by the second equation on the same artifact root. -/
theorem claim_C3_discovery_attribute_error :
    discover [KwItem.conj ["东南大学".data, "南京大学".data]]
        ⟨true, [⟨"A".data, true, []⟩, ⟨"B".data, true, []⟩]⟩ =
      Except.error PyErr.attributeError ∧
    pickTarget none ⟨true, [⟨"A".data, true, []⟩, ⟨"B".data, true, []⟩]⟩ =
      some ("A".data) :=
  ⟨rfl, rfl⟩

/-! Error taxonomy of a run: the modelled code can only raise ValueError
(integer parsing) or AttributeError (artifact discovery). -/

theorem pyInt_not_jar (s : Str) :
    pyInt s ≠ Except.error PyErr.jobAlreadyRunningError := by
  unfold pyInt
  cases pyIntCore (pyStrip s) <;> simp

theorem int_field_not_jar (p : Params) (k : Str) :
    int_field p k ≠ Except.error PyErr.jobAlreadyRunningError := by
  unfold int_field
  cases pget p k with
  | none => simp
  | some v => exact pyInt_not_jar v

theorem discover_not_jar (kw : List KwItem) (fs : Fs) :
    discover kw fs ≠ Except.error PyErr.jobAlreadyRunningError := by
  unfold discover
  split
  · cases kw with
    | nil => simp
    | cons item rest => cases item <;> simp [restore_item]
  · simp

theorem run_spider_not_jar (co : Collab) (fs : Fs) (p : Params) (cfg : SpiderCfg) :
    (run_spider co fs p cfg).outcome ≠ Except.error PyErr.jobAlreadyRunningError := by
  unfold run_spider
  cases hwt : int_field p ("weibo_type".data) with
  | error e =>
    intro hc
    have he : e = PyErr.jobAlreadyRunningError := by simpa using hc
    subst he
    exact int_field_not_jar p ("weibo_type".data) hwt
  | ok wt =>
    cases hct : int_field p ("contain_type".data) with
    | error e =>
      intro hc
      have he : e = PyErr.jobAlreadyRunningError := by simpa using hc
      subst he
      exact int_field_not_jar p ("contain_type".data) hct
    | ok ct =>
      exact discover_not_jar _ fs

theorem do_POST_run (co : Collab) (fs : Fs) (body : Str) (s : ServerState) :
    do_POST co fs ("/run".data) body s =
      (let tr := run_spider co fs (flattened body) s.cfg
       let s' : ServerState :=
         ⟨tr.cfg, s.engineStarts + (if tr.engineStarted then 1 else 0)⟩
       match tr.outcome with
       | Except.error e => (HandlerResult.raised e, s')
       | Except.ok _ =>
         (HandlerResult.response 200 ("爬取完成，请关闭此页面。".data), s')) := by
  unfold do_POST
  rw [if_pos rfl]

/-- C1 counterexample: two successive submissions to the run path are both
accepted — the second one, arriving while the first session's state is
still in place, returns the normal completion response (it does not fail
with any error) and a second crawl-engine instance is started, so the
engine-start count reaches 2. -/
theorem claim_C1_counterexample :
    (do_POST collab0 fs0 ("/run".data) ("keywords=abc".data)
        ((do_POST collab0 fs0 ("/run".data) ("keywords=abc".data) ⟨cfg0, 0⟩).2)).1 =
      HandlerResult.response 200 ("爬取完成，请关闭此页面。".data) ∧
    ((do_POST collab0 fs0 ("/run".data) ("keywords=abc".data)
        ((do_POST collab0 fs0 ("/run".data) ("keywords=abc".data) ⟨cfg0, 0⟩).2)).2).engineStarts =
      2 :=
  ⟨rfl, rfl⟩

/-- C1 as amended: the code has no JobAlreadyRunningError — no run
invocation ever fails with it, whatever the prior state; requests are
handled strictly one after another by the single-threaded server, and each
processed run submission whose integer fields parse starts one more
crawl-engine instance instead of being rejected. -/
theorem claim_C1_amended (co : Collab) (fs : Fs) (body : Str) (s : ServerState) :
    (do_POST co fs ("/run".data) body s).1 ≠
      HandlerResult.raised PyErr.jobAlreadyRunningError ∧
    (∀ n m, int_field (flattened body) ("weibo_type".data) = Except.ok n →
        int_field (flattened body) ("contain_type".data) = Except.ok m →
        (do_POST co fs ("/run".data) body s).2.engineStarts = s.engineStarts + 1) := by
  constructor
  · rw [do_POST_run]
    cases ho : (run_spider co fs (flattened body) s.cfg).outcome with
    | error e =>
      simp only [ho]
      intro hc
      have he : e = PyErr.jobAlreadyRunningError := by simpa using hc
      exact run_spider_not_jar co fs (flattened body) s.cfg (by rw [ho, he])
    | ok v => simp [ho]
  · intro n m hn hm
    rw [do_POST_run]
    have htr : (run_spider co fs (flattened body) s.cfg).engineStarted = true := by
      simp [run_spider, hn, hm]
    cases ho : (run_spider co fs (flattened body) s.cfg).outcome with
    | error e => simp [ho, htr]
    | ok v => simp [ho, htr]

/-- Witness for the amended C1 on a concrete second submission. -/
theorem claim_C1_amended_witness :
    (do_POST collab0 fs0 ("/run".data) ("keywords=abc".data) ⟨cfg0, 1⟩).1 ≠
      HandlerResult.raised PyErr.jobAlreadyRunningError ∧
    (do_POST collab0 fs0 ("/run".data) ("keywords=abc".data) ⟨cfg0, 1⟩).2.engineStarts = 2 :=
  ⟨(claim_C1_amended collab0 fs0 ("keywords=abc".data) ⟨cfg0, 1⟩).1,
   (claim_C1_amended collab0 fs0 ("keywords=abc".data) ⟨cfg0, 1⟩).2 0 0 rfl rfl⟩

end WeiboSearch
